import Mathlib

/-!
Shallow embedding of `scanner.go` from the certspotter repository.

The scanner talks to three collaborators (the CT log wire client, the
signature verifier and the Merkle engine); each is passed in as an explicit
function.  The entry-retrieval collaborator `GetEntries` is modelled as a
function of the number of calls made so far (so one client value can model a
collaborator whose answers change from call to call) and of the requested
inclusive index range.  Channel sends, tree-builder additions, issued
requests and retry sleeps are recorded as traces in the result structures;
a fuel parameter makes the source's potentially non-terminating `for` loops
total, with a distinguished `fuelOut` result standing for a run that has not
returned within the given number of loop iterations.
-/

namespace Certspotter

/-- Opaque leaf payload bytes (`ct.LogEntry.LeafBytes`). -/
abbrev LeafBytes := Nat

/-- Opaque hash values fed to the Merkle tree builder. -/
abbrev Hash := Nat

/-- Opaque collaborator errors (`error` values in Go). -/
abbrev Err := Nat

/-- The log client's `GetEntries(start, end)` collaborator.  The first
argument is the number of `GetEntries` calls made so far. -/
abbrev GetEntriesFn := Nat → Int → Int → Except Err (List LeafBytes)

/-- `FETCH_RETRIES = 10` from scanner.go. -/
def FETCH_RETRIES : Nat := 10

/-- `FETCH_RETRY_WAIT = 1` (seconds) from scanner.go. -/
def FETCH_RETRY_WAIT : Nat := 1

/-- A log entry as it is sent on the `entries` channel: the fetcher assigns
`Index` from its own `r.start` counter; the payload comes from the server. -/
structure LogEntry where
  Index : Int
  LeafBytes : LeafBytes
  deriving DecidableEq, Repr

/-- How one run of the `for !success` loop in `Scanner.fetch` (or of the
batch loop in `Scanner.Scan`) ended: normal return of `nil`, return of an
error, or fuel exhausted (the loop has not returned within the modelled
number of iterations). -/
inductive FetchResult where
  | ok : FetchResult
  | err : Err → FetchResult
  | fuelOut : FetchResult
  deriving DecidableEq, Repr

/-- Observable outcome of `Scanner.fetch`: final client call counter, final
`r.start`, the entries sent on the channel in send order, the leaf hashes
added to the tree builder in order, the `GetEntries` requests issued in
order, the sleeps (in seconds) performed before retries in order, and how
the loop ended. -/
structure FetchOut where
  calls : Nat
  start : Int
  sent : List LogEntry
  tree : List Hash
  reqs : List (Int × Int)
  sleeps : List Nat
  result : FetchResult
  deriving DecidableEq, Repr

/-- The inner `for _, logEntry := range logEntries` loop of `Scanner.fetch`:
each received payload is assigned `Index = r.start` and `r.start` is
incremented. -/
def indexFrom : Int → List LeafBytes → List LogEntry
  | _, [] => []
  | i, b :: bs => ⟨i, b⟩ :: indexFrom (i + 1) bs

/-- The `for !success` loop of `Scanner.fetch`, with explicit `retries` and
`retryWait` counters (initialised to `FETCH_RETRIES` and `FETCH_RETRY_WAIT`
by `fetch`).  On a `GetEntries` error with `retries = 0` the error is
returned; otherwise the loop sleeps `retryWait` seconds, decrements
`retries`, doubles `retryWait` and continues.  On success both counters are
reset to their baseline, every returned payload is hashed into the tree
builder (when one is supplied), indexed and sent, and the loop ends with
`success = true` exactly when the advanced `r.start` exceeds `r.end`. -/
def fetchGo (g : GetEntriesFn) (hashLeaf : LeafBytes → Hash) (useTree : Bool) :
    Nat → Nat → Int → Int → Nat → Nat → FetchOut
  | 0, calls, start, _, _, _ => ⟨calls, start, [], [], [], [], .fuelOut⟩
  | fuel + 1, calls, start, e, retries, retryWait =>
    match g calls start e with
    | .error er =>
      if retries = 0 then
        ⟨calls + 1, start, [], [], [(start, e)], [], .err er⟩
      else
        let rest := fetchGo g hashLeaf useTree fuel (calls + 1) start e (retries - 1)
          (retryWait * 2)
        ⟨rest.calls, rest.start, rest.sent, rest.tree, (start, e) :: rest.reqs,
          retryWait :: rest.sleeps, rest.result⟩
    | .ok l =>
      let newStart := start + (l.length : Int)
      let batchSent := indexFrom start l
      let batchTree := if useTree then l.map hashLeaf else []
      if e < newStart then
        ⟨calls + 1, newStart, batchSent, batchTree, [(start, e)], [], .ok⟩
      else
        let rest := fetchGo g hashLeaf useTree fuel (calls + 1) newStart e FETCH_RETRIES
          FETCH_RETRY_WAIT
        ⟨rest.calls, rest.start, batchSent ++ rest.sent, batchTree ++ rest.tree,
          (start, e) :: rest.reqs, rest.sleeps, rest.result⟩

/-- `Scanner.fetch`: the retry loop entered with the baseline budget
`FETCH_RETRIES` and baseline wait `FETCH_RETRY_WAIT`. -/
def fetch (g : GetEntriesFn) (hashLeaf : LeafBytes → Hash) (useTree : Bool)
    (fuel calls : Nat) (start e : Int) : FetchOut :=
  fetchGo g hashLeaf useTree fuel calls start e FETCH_RETRIES FETCH_RETRY_WAIT

/-- `ScannerOptions` from scanner.go. -/
structure ScannerOptions where
  BatchSize : Int
  NumWorkers : Nat
  Quiet : Bool
  deriving DecidableEq, Repr

/-- `DefaultScannerOptions` from scanner.go. -/
def DefaultScannerOptions : ScannerOptions :=
  { BatchSize := 1000, NumWorkers := 1, Quiet := false }

/-- The scanner state the claims depend on: its options and the
`certsProcessed` stats counter. -/
structure Scanner where
  opts : ScannerOptions
  certsProcessed : Int
  deriving DecidableEq, Repr

/-- `Scanner.processerJob`'s effect on the stats counter: one atomic
increment per entry received from the channel.  In the embedding a worker
pool that has been joined has received every sent entry, so folding over
the full send trace gives the counter's value after `processorWG.Wait()`. -/
def processerJob (entries : List LogEntry) (certsProcessed : Int) : Int :=
  entries.foldl (fun c _ => c + 1) certsProcessed

/-- Observable outcome of the batch loop of `Scanner.Scan` (the traces of
all its `fetch` calls concatenated in order). -/
structure BatchOut where
  calls : Nat
  sent : List LogEntry
  tree : List Hash
  reqs : List (Int × Int)
  sleeps : List Nat
  result : FetchResult
  deriving DecidableEq, Repr

/-- The `for start := startIndex; start < endIndex` batch loop of
`Scanner.Scan`: each iteration fetches the range
`[start, min(start+BatchSize, endIndex) - 1]` and, on success, continues at
`end + 1`; a fetch error ends the loop (and `Scan`) at once. -/
def scanLoop (g : GetEntriesFn) (hashLeaf : LeafBytes → Hash) (useTree : Bool)
    (batchSize endIndex : Int) (fetchFuel : Nat) :
    Nat → Nat → Int → BatchOut
  | 0, calls, start =>
    if start < endIndex then ⟨calls, [], [], [], [], .fuelOut⟩
    else ⟨calls, [], [], [], [], .ok⟩
  | fuel + 1, calls, start =>
    if start < endIndex then
      let e := min (start + batchSize) endIndex - 1
      let f := fetch g hashLeaf useTree fetchFuel calls start e
      match f.result with
      | .err er => ⟨f.calls, f.sent, f.tree, f.reqs, f.sleeps, .err er⟩
      | .fuelOut => ⟨f.calls, f.sent, f.tree, f.reqs, f.sleeps, .fuelOut⟩
      | .ok =>
        let rest := scanLoop g hashLeaf useTree batchSize endIndex fetchFuel fuel f.calls
          (e + 1)
        ⟨rest.calls, f.sent ++ rest.sent, f.tree ++ rest.tree, f.reqs ++ rest.reqs,
          f.sleeps ++ rest.sleeps, rest.result⟩
    else ⟨calls, [], [], [], [], .ok⟩

/-- Observable outcome of `Scanner.Scan`.  `certsProcessed` is the stats
counter at the moment `Scan` returns: after the success path's
`close(jobs); processorWG.Wait()` every sent entry has been received and
counted, so its value is determined; on the error path `Scan` returns
without closing the channel or joining the workers, the counter is still
racing, and the field is `none`.  `closed` records whether `close(jobs)`
ran, `waited` whether `processorWG.Wait()` ran, and `completedLogged`
whether the final `Completed ... certs in ...` log call ran. -/
structure ScanOut where
  calls : Nat
  sent : List LogEntry
  tree : List Hash
  reqs : List (Int × Int)
  sleeps : List Nat
  certsProcessed : Option Int
  closed : Bool
  waited : Bool
  completedLogged : Bool
  result : FetchResult
  deriving DecidableEq, Repr

/-- `Scanner.Scan`: reset `certsProcessed` to 0, start the workers, run the
batch loop, and on success close the channel, join the workers and log
completion; on a fetch error return it immediately, skipping all three. -/
def Scan (s : Scanner) (g : GetEntriesFn) (hashLeaf : LeafBytes → Hash) (useTree : Bool)
    (startIndex endIndex : Int) (batchFuel fetchFuel : Nat) : ScanOut :=
  let certs0 : Int := 0
  let b := scanLoop g hashLeaf useTree s.opts.BatchSize endIndex fetchFuel batchFuel 0
    startIndex
  match b.result with
  | .ok =>
    ⟨b.calls, b.sent, b.tree, b.reqs, b.sleeps, some (processerJob b.sent certs0),
      true, true, true, .ok⟩
  | .err er =>
    ⟨b.calls, b.sent, b.tree, b.reqs, b.sleeps, none, false, false, false, .err er⟩
  | .fuelOut =>
    ⟨b.calls, b.sent, b.tree, b.reqs, b.sleeps, none, false, false, false, .fuelOut⟩

/-- One node of a consistency proof (`ct.MerkleTreeNode`), opaque. -/
abbrev MerkleTreeNode := Nat

/-- `ct.ConsistencyProof`: an ordered sequence of proof nodes. -/
abbrev ConsistencyProof := List MerkleTreeNode

/-- The fields of `ct.SignedTreeHead` the scanner reads or passes along. -/
structure SignedTreeHead where
  Timestamp : Nat
  TreeSize : Nat
  SHA256RootHash : Nat
  deriving DecidableEq, Repr

/-- Observable outcome of `Scanner.CheckConsistency`: the four returned
values (`nil` pointers and `nil` slices become `none`; the Go `nil` slice is
distinct from the non-nil empty slice `some []`), plus whether the
`GetConsistencyProof` collaborator and the `VerifyConsistencyProof`
collaborator were invoked. -/
structure ConsistencyOut (τ : Type) where
  valid : Bool
  builder : Option τ
  proof : Option ConsistencyProof
  err : Option Err
  proofFetched : Bool
  verifierCalled : Bool
  deriving DecidableEq, Repr

/-- `Scanner.CheckConsistency`, with the proof-fetch collaborator
(`logClient.GetConsistencyProof`) and the Merkle verification collaborator
(`VerifyConsistencyProof`, returning a validity bit and a reconstructed tree
builder of type `τ`) passed explicitly. -/
def CheckConsistency {τ : Type}
    (getProof : Nat → Nat → Except Err ConsistencyProof)
    (verifyCP : ConsistencyProof → SignedTreeHead → SignedTreeHead → Bool × τ)
    (first second : SignedTreeHead) : ConsistencyOut τ :=
  if first.TreeSize > second.TreeSize then
    ⟨false, none, none, none, false, false⟩
  else if first.TreeSize = second.TreeSize then
    let v := verifyCP [] first second
    ⟨v.1, some v.2, some [], none, false, true⟩
  else
    match getProof first.TreeSize second.TreeSize with
    | .error e => ⟨false, none, none, some e, true, false⟩
    | .ok proof =>
      let v := verifyCP proof first second
      ⟨v.1, some v.2, some proof, none, true, true⟩

/-- How `Scanner.GetSTH` can fail.  The Go code returns the transport error
unchanged, returns `ct.NewSignatureVerifier`'s error unchanged, and wraps a
signature-verification failure in a freshly constructed
`"STH signature is invalid: ..."` error; the three provenances are kept as
distinct constructors so that a signature-invalid result is, as in the
source, never the same value as a passed-through transport error. -/
inductive GetSTHError where
  | transport : Err → GetSTHError
  | verifierSetup : Err → GetSTHError
  | signatureInvalid : Err → GetSTHError
  deriving DecidableEq, Repr

/-- Observable outcome of `Scanner.GetSTH`: the returned head or error,
the number of `logClient.GetSTH` calls made, and whether
`VerifySTHSignature` was invoked. -/
structure GetSTHOut where
  result : Except GetSTHError SignedTreeHead
  clientCalls : Nat
  signatureChecked : Bool
  deriving Repr

/-- `Scanner.GetSTH`: one `logClient.GetSTH` call; then, only when a public
key was configured at construction, build the verifier and check the
signature. -/
def GetSTH {κ ν : Type}
    (clientGetSTH : Except Err SignedTreeHead)
    (publicKey : Option κ)
    (newSignatureVerifier : κ → Except Err ν)
    (verifySTHSignature : ν → SignedTreeHead → Option Err) : GetSTHOut :=
  match clientGetSTH with
  | .error e => ⟨.error (.transport e), 1, false⟩
  | .ok latestSth =>
    match publicKey with
    | none => ⟨.ok latestSth, 1, false⟩
    | some pk =>
      match newSignatureVerifier pk with
      | .error e => ⟨.error (.verifierSetup e), 1, false⟩
      | .ok verifier =>
        match verifySTHSignature verifier latestSth with
        | some e => ⟨.error (.signatureInvalid e), 1, true⟩
        | none => ⟨.ok latestSth, 1, true⟩

/-- The integers `a, a+1, ..., a+n-1` in increasing order. -/
def intRangeN : Int → Nat → List Int
  | _, 0 => []
  | a, n + 1 => a :: intRangeN (a + 1) n

/-- A compliant collaborator: never errors and returns exactly the
requested entries (payload = the index, truncated to a natural). -/
def okClient : GetEntriesFn :=
  fun _ a b => .ok ((intRangeN a (b + 1 - a).toNat).map Int.toNat)

/-- A collaborator that errors on its first `f` calls and from then on
behaves like `okClient`: `f` consecutive transient failures, then success. -/
def flakyClient (f : Nat) : GetEntriesFn :=
  fun n a b => if n < f then .error 7 else .ok ((intRangeN a (b + 1 - a).toNat).map Int.toNat)

/-- A collaborator that always answers a request with one entry when the
range is non-empty: every response to a range of two or more indices is a
short (but legitimate) response. -/
def shortClient : GetEntriesFn :=
  fun _ a b => .ok (if a ≤ b then [a.toNat] else [])

/-- A collaborator that always succeeds with zero entries. -/
def emptyOkClient : GetEntriesFn :=
  fun _ _ _ => .ok []

end Certspotter

namespace Certspotter

theorem intRangeN_length (a : Int) (n : Nat) : (intRangeN a n).length = n := by
  induction n generalizing a with
  | zero => rfl
  | succ n ih => simp [intRangeN, ih]

theorem intRangeN_append (a : Int) (m n : Nat) :
    intRangeN a m ++ intRangeN (a + (m : Int)) n = intRangeN a (m + n) := by
  induction m generalizing a with
  | zero => simp [intRangeN]
  | succ m ih =>
    have h1 : a + ((m + 1 : Nat) : Int) = (a + 1) + (m : Int) := by push_cast; ring
    have h2 : m + 1 + n = (m + n) + 1 := by omega
    rw [h1, h2]
    simp only [intRangeN, List.cons_append, ih (a + 1)]

theorem intRangeN_head (a : Int) (n : Nat) :
    (intRangeN a (n + 1)).head? = some a := rfl

theorem intRangeN_chain (a : Int) (n : Nat) :
    List.Chain' (· < ·) (intRangeN a n) := by
  induction n generalizing a with
  | zero => simp [intRangeN]
  | succ n ih =>
    rw [intRangeN, List.chain'_cons']
    refine ⟨?_, ih (a + 1)⟩
    intro y hy
    cases n with
    | zero => simp [intRangeN] at hy
    | succ n =>
      rw [intRangeN_head] at hy
      simp at hy
      omega

theorem intRangeN_glue (a c : Int) (k : Nat) (h : a + (k : Int) ≤ c) :
    intRangeN a k ++ intRangeN (a + (k : Int)) (c - (a + (k : Int))).toNat =
      intRangeN a (c - a).toNat := by
  rw [intRangeN_append]
  congr 1
  omega

theorem indexFrom_map_index (i : Int) (l : List LeafBytes) :
    (indexFrom i l).map LogEntry.Index = intRangeN i l.length := by
  induction l generalizing i with
  | nil => rfl
  | cons b bs ih => simp [indexFrom, intRangeN, ih]

theorem processerJob_eq_length (entries : List LogEntry) (c : Int) :
    processerJob entries c = c + entries.length := by
  induction entries generalizing c with
  | nil => simp [processerJob]
  | cons x xs ih =>
    simp only [processerJob, List.foldl_cons, List.length_cons] at *
    rw [ih]
    push_cast
    ring

/-- `r.start` never decreases across the fetch loop. -/
theorem fetchGo_start_le (g : GetEntriesFn) (hashLeaf : LeafBytes → Hash) (useTree : Bool)
    (fuel calls : Nat) (start e : Int) (retries retryWait : Nat) :
    start ≤ (fetchGo g hashLeaf useTree fuel calls start e retries retryWait).start := by
  induction fuel generalizing calls start retries retryWait with
  | zero => simp [fetchGo]
  | succ fuel ih =>
    rw [fetchGo]
    cases hg : g calls start e with
    | error er =>
      by_cases hr : retries = 0
      · simp [hr]
      · simp only [hr, if_false]
        exact ih (calls + 1) start (retries - 1) (retryWait * 2)
    | ok l =>
      simp only
      by_cases hlt : e < start + (l.length : Int)
      · simp only [hlt, if_true]
        omega
      · simp only [hlt, if_false]
        have := ih (calls + 1) (start + (l.length : Int)) FETCH_RETRIES FETCH_RETRY_WAIT
        omega

/-- The entries sent on the channel carry exactly the indices from the
initial `r.start` up to (excluding) the final `r.start`, in increasing
order. -/
theorem fetchGo_sent_indices (g : GetEntriesFn) (hashLeaf : LeafBytes → Hash)
    (useTree : Bool) (fuel calls : Nat) (start e : Int) (retries retryWait : Nat) :
    (fetchGo g hashLeaf useTree fuel calls start e retries retryWait).sent.map
        LogEntry.Index =
      intRangeN start
        ((fetchGo g hashLeaf useTree fuel calls start e retries retryWait).start
          - start).toNat := by
  induction fuel generalizing calls start retries retryWait with
  | zero => simp [fetchGo, intRangeN]
  | succ fuel ih =>
    rw [fetchGo]
    cases hg : g calls start e with
    | error er =>
      by_cases hr : retries = 0
      · simp [hr, intRangeN]
      · simp only [hr, if_false]
        exact ih (calls + 1) start (retries - 1) (retryWait * 2)
    | ok l =>
      simp only
      by_cases hlt : e < start + (l.length : Int)
      · simp only [hlt, if_true]
        rw [indexFrom_map_index]
        congr 1
        omega
      · simp only [hlt, if_false]
        have hle := fetchGo_start_le g hashLeaf useTree fuel (calls + 1)
          (start + (l.length : Int)) e FETCH_RETRIES FETCH_RETRY_WAIT
        rw [List.map_append, indexFrom_map_index, ih (calls + 1)]
        have harith : (l.length : Int) +
            ((fetchGo g hashLeaf useTree fuel (calls + 1) (start + (l.length : Int)) e
              FETCH_RETRIES FETCH_RETRY_WAIT).start - (start + (l.length : Int))).toNat =
            ((fetchGo g hashLeaf useTree fuel (calls + 1) (start + (l.length : Int)) e
              FETCH_RETRIES FETCH_RETRY_WAIT).start - start).toNat := by
          omega
        rw [show start + (l.length : Int) = start + ((l.length : Nat) : Int) from rfl] at *
        rw [intRangeN_append]
        congr 1
        omega

/-- The fetch loop only reports success once `r.start` exceeds `r.end`. -/
theorem fetchGo_ok_gt (g : GetEntriesFn) (hashLeaf : LeafBytes → Hash) (useTree : Bool)
    (fuel calls : Nat) (start e : Int) (retries retryWait : Nat) :
    (fetchGo g hashLeaf useTree fuel calls start e retries retryWait).result =
      FetchResult.ok →
    e < (fetchGo g hashLeaf useTree fuel calls start e retries retryWait).start := by
  induction fuel generalizing calls start retries retryWait with
  | zero => simp [fetchGo]
  | succ fuel ih =>
    rw [fetchGo]
    cases hg : g calls start e with
    | error er =>
      by_cases hr : retries = 0
      · simp [hr]
      · simp only [hr, if_false]
        exact ih (calls + 1) start (retries - 1) (retryWait * 2)
    | ok l =>
      simp only
      by_cases hlt : e < start + (l.length : Int)
      · simp [hlt]
      · simp only [hlt, if_false]
        exact ih (calls + 1) (start + (l.length : Int)) FETCH_RETRIES FETCH_RETRY_WAIT

/-- Against a collaborator that never returns more entries than requested,
a successful fetch of `[start, e]` ends with `r.start = e + 1` exactly. -/
theorem fetchGo_ok_start (g : GetEntriesFn) (hashLeaf : LeafBytes → Hash) (useTree : Bool)
    (hlen : ∀ n a b l, g n a b = .ok l → l.length ≤ (b + 1 - a).toNat)
    (fuel calls : Nat) (start e : Int) (retries retryWait : Nat)
    (hse : start ≤ e + 1) :
    (fetchGo g hashLeaf useTree fuel calls start e retries retryWait).result =
      FetchResult.ok →
    (fetchGo g hashLeaf useTree fuel calls start e retries retryWait).start = e + 1 := by
  induction fuel generalizing calls start retries retryWait with
  | zero => simp [fetchGo]
  | succ fuel ih =>
    rw [fetchGo]
    cases hg : g calls start e with
    | error er =>
      by_cases hr : retries = 0
      · simp [hr]
      · simp only [hr, if_false]
        exact ih (calls + 1) start (retries - 1) (retryWait * 2) hse
    | ok l =>
      simp only
      have hll := hlen calls start e l hg
      by_cases hlt : e < start + (l.length : Int)
      · simp only [hlt, if_true]
        intro
        omega
      · simp only [hlt, if_false]
        exact ih (calls + 1) (start + (l.length : Int)) FETCH_RETRIES FETCH_RETRY_WAIT
          (by omega)

/-- Against a collaborator that never errors, the fetch loop never returns
an error. -/
theorem fetchGo_no_err (g : GetEntriesFn) (hashLeaf : LeafBytes → Hash) (useTree : Bool)
    (hne : ∀ n a b, ∃ l, g n a b = .ok l)
    (fuel calls : Nat) (start e : Int) (retries retryWait : Nat) (er : Err) :
    (fetchGo g hashLeaf useTree fuel calls start e retries retryWait).result ≠
      FetchResult.err er := by
  induction fuel generalizing calls start retries retryWait with
  | zero => simp [fetchGo]
  | succ fuel ih =>
    rw [fetchGo]
    obtain ⟨l, hl⟩ := hne calls start e
    rw [hl]
    simp only
    by_cases hlt : e < start + (l.length : Int)
    · simp [hlt]
    · simp only [hlt, if_false]
      exact ih (calls + 1) (start + (l.length : Int)) FETCH_RETRIES FETCH_RETRY_WAIT

/-- Whenever the loop body runs at all, its first action is to request
exactly the current remaining range. -/
theorem fetchGo_reqs_head (g : GetEntriesFn) (hashLeaf : LeafBytes → Hash) (useTree : Bool)
    (fuel calls : Nat) (start e : Int) (retries retryWait : Nat) (hf : 0 < fuel) :
    (fetchGo g hashLeaf useTree fuel calls start e retries retryWait).reqs.head? =
      some (start, e) := by
  cases fuel with
  | zero => omega
  | succ fuel =>
    rw [fetchGo]
    cases hg : g calls start e with
    | error er =>
      by_cases hr : retries = 0
      · simp [hr]
      · simp [hr]
    | ok l =>
      simp only
      by_cases hlt : e < start + (l.length : Int)
      · simp [hlt]
      · simp [hlt]

/-- `k ≤ retries` consecutive `GetEntries` failures are absorbed by the
retry loop: the loop sleeps `w, 2w, ..., 2^(k-1) w` seconds, re-issues the
same request each time, and continues with `retries - k` attempts left and
wait `2^k w`, having sent nothing. -/
theorem fetchGo_cascade (g : GetEntriesFn) (hashLeaf : LeafBytes → Hash) (useTree : Bool)
    (k : Nat) :
    ∀ (fuel calls : Nat) (start e : Int) (retries w : Nat),
    (∀ i, i < k → ∃ er, g (calls + i) start e = .error er) → k ≤ retries →
    fetchGo g hashLeaf useTree (k + fuel) calls start e retries w =
      ⟨(fetchGo g hashLeaf useTree fuel (calls + k) start e (retries - k) (w * 2 ^ k)).calls,
       (fetchGo g hashLeaf useTree fuel (calls + k) start e (retries - k) (w * 2 ^ k)).start,
       (fetchGo g hashLeaf useTree fuel (calls + k) start e (retries - k) (w * 2 ^ k)).sent,
       (fetchGo g hashLeaf useTree fuel (calls + k) start e (retries - k) (w * 2 ^ k)).tree,
       List.replicate k (start, e) ++
         (fetchGo g hashLeaf useTree fuel (calls + k) start e (retries - k) (w * 2 ^ k)).reqs,
       (List.range k).map (fun i => w * 2 ^ i) ++
         (fetchGo g hashLeaf useTree fuel (calls + k) start e (retries - k) (w * 2 ^ k)).sleeps,
       (fetchGo g hashLeaf useTree fuel (calls + k) start e (retries - k) (w * 2 ^ k)).result⟩ := by
  induction k with
  | zero => intro fuel calls start e retries w _ _; simp
  | succ k ih =>
    intro fuel calls start e retries w hf hk
    obtain ⟨er, her⟩ := hf 0 (by omega)
    rw [show k + 1 + fuel = (k + fuel) + 1 from by omega, fetchGo]
    rw [show calls + 0 = calls from by omega] at her
    rw [her]
    have hr : ¬ retries = 0 := by omega
    simp only [hr, if_false]
    rw [ih fuel (calls + 1) start e (retries - 1) (w * 2)
      (fun i hi => by
        rw [show calls + 1 + i = calls + (i + 1) from by omega]
        exact hf (i + 1) (by omega))
      (by omega)]
    have hc : calls + 1 + k = calls + (k + 1) := by omega
    have hrr : retries - 1 - k = retries - (k + 1) := by omega
    have hw : w * 2 * 2 ^ k = w * 2 ^ (k + 1) := by ring
    have hsl : (List.range (k + 1)).map (fun i => w * 2 ^ i) =
        w :: (List.range k).map (fun i => w * 2 * 2 ^ i) := by
      rw [List.range_succ_eq_map, List.map_cons, List.map_map]
      refine congrArg₂ _ (by simp) ?_
      refine List.map_congr_left (fun i _ => ?_)
      simp only [Function.comp_apply, Nat.succ_eq_add_one]
      ring
    rw [hc, hrr, hw, hsl, List.replicate_succ]
    simp

/-- When the `GetEntries` call fails on `retries + 1` consecutive attempts,
the loop performs all `retries` backoff sleeps and then returns the final
attempt's error. -/
theorem fetchGo_exhaust (g : GetEntriesFn) (hashLeaf : LeafBytes → Hash) (useTree : Bool)
    (fuel calls : Nat) (start e : Int) (retries w : Nat) (er : Err)
    (hf : ∀ i, i < retries → ∃ er', g (calls + i) start e = .error er')
    (hlast : g (calls + retries) start e = .error er) :
    fetchGo g hashLeaf useTree (retries + 1 + fuel) calls start e retries w =
      ⟨calls + retries + 1, start, [], [], List.replicate (retries + 1) (start, e),
       (List.range retries).map (fun i => w * 2 ^ i), .err er⟩ := by
  rw [show retries + 1 + fuel = retries + (fuel + 1) from by omega]
  rw [fetchGo_cascade g hashLeaf useTree retries (fuel + 1) calls start e retries w hf
    le_rfl]
  rw [fetchGo, hlast]
  simp [List.replicate_succ']

/-- A successful run of the batch loop of `Scan` sends exactly the indices
`[start, endIndex)` on the channel, in order, provided the collaborator
never returns more entries than requested and `BatchSize ≥ 1`. -/
theorem scanLoop_ok_sent (g : GetEntriesFn) (hashLeaf : LeafBytes → Hash) (useTree : Bool)
    (batchSize endIndex : Int) (ffuel : Nat)
    (hbs : 1 ≤ batchSize)
    (hlen : ∀ n a b l, g n a b = .ok l → l.length ≤ (b + 1 - a).toNat) :
    ∀ (fuel calls : Nat) (start : Int),
      (scanLoop g hashLeaf useTree batchSize endIndex ffuel fuel calls start).result =
        FetchResult.ok →
      (scanLoop g hashLeaf useTree batchSize endIndex ffuel fuel calls start).sent.map
          LogEntry.Index =
        intRangeN start (endIndex - start).toNat := by
  intro fuel
  induction fuel with
  | zero =>
    intro calls start
    by_cases h : start < endIndex
    · simp [scanLoop, h]
    · intro _
      simp only [scanLoop, h, if_false]
      rw [show (endIndex - start).toNat = 0 from by omega]
      rfl
  | succ fuel ih =>
    intro calls start
    by_cases h : start < endIndex
    · rw [scanLoop]
      simp only [h, if_true]
      split
      · simp
      · simp
      · rename_i heq
        intro hok
        have hmin : start ≤ min (start + batchSize) endIndex :=
          le_min (by omega) (by omega)
        have hm : start ≤ min (start + batchSize) endIndex - 1 + 1 := by omega
        have hfst : (fetch g hashLeaf useTree ffuel calls start
            (min (start + batchSize) endIndex - 1)).start =
            min (start + batchSize) endIndex - 1 + 1 := by
          rw [fetch] at heq ⊢
          exact fetchGo_ok_start g hashLeaf useTree hlen ffuel calls start _
            FETCH_RETRIES FETCH_RETRY_WAIT hm heq
        have hrest := ih _ (min (start + batchSize) endIndex - 1 + 1) hok
        rw [fetch] at hfst
        simp only [fetch] at hrest
        simp only [fetch, List.map_append]
        rw [fetchGo_sent_indices, hfst, hrest]
        have hglue := intRangeN_glue start endIndex
          ((min (start + batchSize) endIndex - 1 + 1 - start).toNat) (by omega)
        rw [show start +
              (((min (start + batchSize) endIndex - 1 + 1 - start).toNat : Nat) : Int) =
            min (start + batchSize) endIndex - 1 + 1 from by omega] at hglue
        exact hglue
    · intro _
      simp only [scanLoop, h, if_false]
      rw [show (endIndex - start).toNat = 0 from by omega]
      rfl

/-- Against a collaborator that never errors, the batch loop never returns
an error. -/
theorem scanLoop_no_err (g : GetEntriesFn) (hashLeaf : LeafBytes → Hash) (useTree : Bool)
    (batchSize endIndex : Int) (ffuel : Nat)
    (hne : ∀ n a b, ∃ l, g n a b = .ok l) :
    ∀ (fuel calls : Nat) (start : Int) (er : Err),
      (scanLoop g hashLeaf useTree batchSize endIndex ffuel fuel calls start).result ≠
        FetchResult.err er := by
  intro fuel
  induction fuel with
  | zero =>
    intro calls start er
    by_cases h : start < endIndex <;> simp [scanLoop, h]
  | succ fuel ih =>
    intro calls start er
    by_cases h : start < endIndex
    · rw [scanLoop]
      simp only [h, if_true]
      split
      · rename_i heq
        rw [fetch] at heq
        exact absurd heq (fetchGo_no_err g hashLeaf useTree hne ffuel calls start _
          FETCH_RETRIES FETCH_RETRY_WAIT _)
      · simp
      · simp only
        exact ih _ _ er
    · simp [scanLoop, h]

theorem okClient_never_errs : ∀ (n : Nat) (a b : Int), ∃ l, okClient n a b = .ok l :=
  fun _ _ _ => ⟨_, rfl⟩

theorem okClient_hlen :
    ∀ (n : Nat) (a b : Int) (l : List LeafBytes),
      okClient n a b = .ok l → l.length ≤ (b + 1 - a).toNat := by
  intro n a b l h
  simp only [okClient, Except.ok.injEq] at h
  rw [← h]
  simp [intRangeN_length]

theorem flakyClient_hlen (f : Nat) :
    ∀ (n : Nat) (a b : Int) (l : List LeafBytes),
      flakyClient f n a b = .ok l → l.length ≤ (b + 1 - a).toNat := by
  intro n a b l h
  simp only [flakyClient] at h
  by_cases hn : n < f
  · simp [hn] at h
  · simp only [hn, if_false, Except.ok.injEq] at h
    rw [← h]
    simp [intRangeN_length]

/-- Once the flaky collaborator's failures are over, one more loop
iteration completes any remaining range. -/
theorem flaky_fetchGo_ok (f : Nat) (hashLeaf : LeafBytes → Hash) (useTree : Bool)
    (fuel n : Nat) (start e : Int) (retries w : Nat)
    (hn : f ≤ n) (hse : start ≤ e + 1) :
    (fetchGo (flakyClient f) hashLeaf useTree (fuel + 1) n start e retries w).result =
      FetchResult.ok ∧
    (fetchGo (flakyClient f) hashLeaf useTree (fuel + 1) n start e retries w).calls =
      n + 1 := by
  rw [fetchGo]
  have hg : flakyClient f n start e =
      .ok ((intRangeN start (e + 1 - start).toNat).map Int.toNat) := by
    simp [flakyClient, Nat.not_lt.mpr hn]
  rw [hg]
  have hlt : e < start + ((intRangeN start (e + 1 - start).toNat).length : Int) := by
    rw [intRangeN_length]
    omega
  simp [hlt]

/-- After its failures are spent, the flaky collaborator lets the batch
loop finish: one call per remaining batch. -/
theorem flaky_scanLoop_ok (f : Nat) (hashLeaf : LeafBytes → Hash) (useTree : Bool)
    (batchSize endIndex : Int) (ff : Nat) (hbs : 1 ≤ batchSize) :
    ∀ (fuel n : Nat) (start : Int), f ≤ n → (endIndex - start).toNat ≤ fuel →
      (scanLoop (flakyClient f) hashLeaf useTree batchSize endIndex (ff + 1) fuel n
        start).result = FetchResult.ok := by
  intro fuel
  induction fuel with
  | zero =>
    intro n start _ hle
    have h : ¬ start < endIndex := by omega
    simp [scanLoop, h]
  | succ fuel ih =>
    intro n start hn hle
    by_cases h : start < endIndex
    · rw [scanLoop]
      simp only [h, if_true]
      have hmin1 : start + 1 ≤ min (start + batchSize) endIndex :=
        le_min (by omega) (by omega)
      have hmin2 : min (start + batchSize) endIndex ≤ endIndex := min_le_right _ _
      have hf := flaky_fetchGo_ok f hashLeaf useTree ff n start
        (min (start + batchSize) endIndex - 1) FETCH_RETRIES FETCH_RETRY_WAIT hn
        (by omega)
      simp only [fetch]
      split
      · rename_i heq
        exact absurd (hf.1.symm.trans heq) (by simp)
      · rename_i heq
        exact absurd (hf.1.symm.trans heq) (by simp)
      · show (scanLoop _ _ _ _ _ _ fuel _ _).result = .ok
        rw [hf.2]
        exact ih (n + 1) (min (start + batchSize) endIndex - 1 + 1) (by omega) (by omega)
    · rw [scanLoop]
      simp [h]

/-- The value `Scan` returns when the batch loop succeeds. -/
theorem Scan_ok_eq (s : Scanner) (g : GetEntriesFn) (hashLeaf : LeafBytes → Hash)
    (useTree : Bool) (startIndex endIndex : Int) (bf ff : Nat)
    (hb : (scanLoop g hashLeaf useTree s.opts.BatchSize endIndex ff bf 0 startIndex).result
      = FetchResult.ok) :
    Scan s g hashLeaf useTree startIndex endIndex bf ff =
      ⟨(scanLoop g hashLeaf useTree s.opts.BatchSize endIndex ff bf 0 startIndex).calls,
       (scanLoop g hashLeaf useTree s.opts.BatchSize endIndex ff bf 0 startIndex).sent,
       (scanLoop g hashLeaf useTree s.opts.BatchSize endIndex ff bf 0 startIndex).tree,
       (scanLoop g hashLeaf useTree s.opts.BatchSize endIndex ff bf 0 startIndex).reqs,
       (scanLoop g hashLeaf useTree s.opts.BatchSize endIndex ff bf 0 startIndex).sleeps,
       some (processerJob
         (scanLoop g hashLeaf useTree s.opts.BatchSize endIndex ff bf 0 startIndex).sent 0),
       true, true, true, FetchResult.ok⟩ := by
  simp [Scan, hb]

/-- The value `Scan` returns when some batch's fetch fails. -/
theorem Scan_err_eq (s : Scanner) (g : GetEntriesFn) (hashLeaf : LeafBytes → Hash)
    (useTree : Bool) (startIndex endIndex : Int) (bf ff : Nat) (er : Err)
    (hb : (scanLoop g hashLeaf useTree s.opts.BatchSize endIndex ff bf 0 startIndex).result
      = FetchResult.err er) :
    Scan s g hashLeaf useTree startIndex endIndex bf ff =
      ⟨(scanLoop g hashLeaf useTree s.opts.BatchSize endIndex ff bf 0 startIndex).calls,
       (scanLoop g hashLeaf useTree s.opts.BatchSize endIndex ff bf 0 startIndex).sent,
       (scanLoop g hashLeaf useTree s.opts.BatchSize endIndex ff bf 0 startIndex).tree,
       (scanLoop g hashLeaf useTree s.opts.BatchSize endIndex ff bf 0 startIndex).reqs,
       (scanLoop g hashLeaf useTree s.opts.BatchSize endIndex ff bf 0 startIndex).sleeps,
       none, false, false, false, FetchResult.err er⟩ := by
  simp [Scan, hb]

/-- C5: for signed tree heads with `first.TreeSize > second.TreeSize`,
`CheckConsistency` returns `(false, nil, nil, nil)` — inconsistent with a
nil error — and neither the proof-fetch collaborator nor the Merkle
verifier is invoked. -/
theorem checkConsistency_shrunk {τ : Type}
    (getProof : Nat → Nat → Except Err ConsistencyProof)
    (verifyCP : ConsistencyProof → SignedTreeHead → SignedTreeHead → Bool × τ)
    (first second : SignedTreeHead)
    (h : first.TreeSize > second.TreeSize) :
    CheckConsistency getProof verifyCP first second =
      ⟨false, none, none, none, false, false⟩ := by
  simp [CheckConsistency, h]

/-- Witness for `checkConsistency_shrunk` at tree sizes 5 > 3. -/
theorem checkConsistency_shrunk_witness :
    @CheckConsistency Nat (fun _ _ => .error 0) (fun _ _ _ => (true, 0))
        ⟨0, 5, 0⟩ ⟨0, 3, 0⟩ =
      ⟨false, none, none, none, false, false⟩ :=
  checkConsistency_shrunk _ _ _ _ (by decide)

/-- C6: for signed tree heads of equal `TreeSize`, `CheckConsistency` never
calls the proof-fetch collaborator; it passes the synthesized empty proof
and the two heads to the Merkle verification collaborator and returns that
collaborator's validity bit and tree builder, together with the empty proof
and a nil error. -/
theorem checkConsistency_equal {τ : Type}
    (getProof : Nat → Nat → Except Err ConsistencyProof)
    (verifyCP : ConsistencyProof → SignedTreeHead → SignedTreeHead → Bool × τ)
    (first second : SignedTreeHead)
    (h : first.TreeSize = second.TreeSize) :
    CheckConsistency getProof verifyCP first second =
      ⟨(verifyCP [] first second).1, some (verifyCP [] first second).2, some [], none,
        false, true⟩ := by
  simp [CheckConsistency, h]

/-- Witness for `checkConsistency_equal` at equal tree sizes 4 = 4. -/
theorem checkConsistency_equal_witness :
    @CheckConsistency Nat (fun _ _ => .error 0) (fun p first second => (decide
        (first.SHA256RootHash = second.SHA256RootHash ∧ p = []), second.TreeSize))
        ⟨0, 4, 9⟩ ⟨1, 4, 9⟩ =
      ⟨true, some 4, some [], none, false, true⟩ :=
  checkConsistency_equal _ _ _ _ (by decide)

/-- C7: `GetSTH` makes a single client attempt with no retry; a transport
failure is returned unchanged (with no signature check); the signature of
the retrieved head is verified exactly when a public key was configured
(and the verifier could be built); a verification failure yields a
signature-invalid error — a different value from any passed-through
transport error — with no tree head; with no public key the head is
returned without any signature verification. -/
theorem getSTH_spec {κ ν : Type}
    (clientGetSTH : Except Err SignedTreeHead) (publicKey : Option κ)
    (newVerifier : κ → Except Err ν) (verifySig : ν → SignedTreeHead → Option Err) :
    (GetSTH clientGetSTH publicKey newVerifier verifySig).clientCalls = 1 ∧
    (∀ e, clientGetSTH = .error e →
      GetSTH clientGetSTH publicKey newVerifier verifySig =
        ⟨.error (.transport e), 1, false⟩) ∧
    (∀ sth, clientGetSTH = .ok sth → publicKey = none →
      GetSTH clientGetSTH publicKey newVerifier verifySig = ⟨.ok sth, 1, false⟩) ∧
    (∀ sth pk v e, clientGetSTH = .ok sth → publicKey = some pk →
      newVerifier pk = .ok v → verifySig v sth = some e →
      GetSTH clientGetSTH publicKey newVerifier verifySig =
        ⟨.error (.signatureInvalid e), 1, true⟩) ∧
    (∀ sth pk v, clientGetSTH = .ok sth → publicKey = some pk →
      newVerifier pk = .ok v → verifySig v sth = none →
      GetSTH clientGetSTH publicKey newVerifier verifySig = ⟨.ok sth, 1, true⟩) ∧
    (∀ e e', GetSTHError.signatureInvalid e ≠ GetSTHError.transport e') ∧
    ((GetSTH clientGetSTH publicKey newVerifier verifySig).signatureChecked = true →
      publicKey.isSome = true) := by
  refine ⟨?_, ?_, ?_, ?_, ?_, ?_, ?_⟩
  · cases h : clientGetSTH <;> simp [GetSTH, h] <;>
      cases publicKey <;> simp <;>
      rename_i sth pk <;> cases h2 : newVerifier pk <;> simp <;>
      cases h3 : verifySig _ sth <;> simp
  · intro e h
    simp [GetSTH, h]
  · intro sth h hpk
    simp [GetSTH, h, hpk]
  · intro sth pk v e h hpk hv hs
    simp [GetSTH, h, hpk, hv, hs]
  · intro sth pk v h hpk hv hs
    simp [GetSTH, h, hpk, hv, hs]
  · intro e e'
    simp
  · intro h
    cases hc : clientGetSTH <;> cases hp : publicKey <;>
      simp [GetSTH, hc, hp] at h ⊢

/-- With `f ≤ FETCH_RETRIES` initial consecutive failures, the whole batch
loop still completes: the first batch absorbs the failures, and every
batch thereafter succeeds on its first attempt. -/
theorem flaky_scanLoop_full (f : Nat) (hashLeaf : LeafBytes → Hash) (useTree : Bool)
    (batchSize endIndex : Int) (ff B : Nat)
    (hf : f ≤ FETCH_RETRIES) (hbs : 1 ≤ batchSize) :
    ∀ (startIndex : Int), startIndex < endIndex →
      (endIndex - startIndex).toNat ≤ B + 1 →
      (scanLoop (flakyClient f) hashLeaf useTree batchSize endIndex (f + (ff + 1))
        (B + 1) 0 startIndex).result = FetchResult.ok := by
  intro startIndex h hfuel
  rw [scanLoop]
  simp only [h, if_true]
  have hmin1 : startIndex + 1 ≤ min (startIndex + batchSize) endIndex :=
    le_min (by omega) (by omega)
  have hmin2 : min (startIndex + batchSize) endIndex ≤ endIndex := min_le_right _ _
  have hfail : ∀ i, i < f → ∃ er, flakyClient f (0 + i) startIndex
      (min (startIndex + batchSize) endIndex - 1) = .error er := by
    intro i hi
    refine ⟨7, ?_⟩
    simp only [flakyClient, Nat.zero_add]
    rw [if_pos hi]
  have hcas := fetchGo_cascade (flakyClient f) hashLeaf useTree f (ff + 1) 0 startIndex
    (min (startIndex + batchSize) endIndex - 1) FETCH_RETRIES FETCH_RETRY_WAIT hfail hf
  have hok2 := flaky_fetchGo_ok f hashLeaf useTree ff (0 + f) startIndex
    (min (startIndex + batchSize) endIndex - 1) (FETCH_RETRIES - f)
    (FETCH_RETRY_WAIT * 2 ^ f) (by omega) (by omega)
  have hres : (fetchGo (flakyClient f) hashLeaf useTree (f + (ff + 1)) 0 startIndex
      (min (startIndex + batchSize) endIndex - 1) FETCH_RETRIES
      FETCH_RETRY_WAIT).result = FetchResult.ok := by
    rw [hcas]
    exact hok2.1
  have hcalls : (fetchGo (flakyClient f) hashLeaf useTree (f + (ff + 1)) 0 startIndex
      (min (startIndex + batchSize) endIndex - 1) FETCH_RETRIES
      FETCH_RETRY_WAIT).calls = f + 1 := by
    rw [hcas]
    rw [hok2.2]
    omega
  simp only [fetch]
  split
  · rename_i heq
    exact absurd (hres.symm.trans heq) (by simp)
  · rename_i heq
    exact absurd (hres.symm.trans heq) (by simp)
  · rw [hcalls]
    rw [show f + (ff + 1) = (f + ff) + 1 from by omega]
    exact flaky_scanLoop_ok f hashLeaf useTree batchSize endIndex (f + ff) hbs B (f + 1)
      (min (startIndex + batchSize) endIndex - 1 + 1) (by omega) (by omega)

/-- C1: with an entry-retrieval collaborator that never errors (and that
honours its contract of returning at most the requested number of
entries), a `Scan` over `[startIndex, endIndex)` with `BatchSize ≥ 1` and
`NumWorkers ≥ 1` never returns an error; and whenever `Scan` returns
without error it has sent on the channel exactly the indices of
`[startIndex, endIndex)`, each exactly once with no gaps or duplicates, in
strictly increasing order, and has closed the channel and joined the
worker pool — so the callback invocation for every such index has
returned — before returning.  (`NumWorkers` and `BatchSize` are
arbitrary within the spec's preconditions; neither affects the delivered
set.) -/
theorem Scan_delivers_exactly_once (s : Scanner) (g : GetEntriesFn)
    (hashLeaf : LeafBytes → Hash) (useTree : Bool) (startIndex endIndex : Int)
    (bf ff : Nat)
    (hne : ∀ n a b, ∃ l, g n a b = .ok l)
    (hlen : ∀ n a b l, g n a b = .ok l → l.length ≤ (b + 1 - a).toNat)
    (hbs : 1 ≤ s.opts.BatchSize)
    (hnw : 1 ≤ s.opts.NumWorkers) :
    (∀ er, (Scan s g hashLeaf useTree startIndex endIndex bf ff).result ≠
      FetchResult.err er) ∧
    ((Scan s g hashLeaf useTree startIndex endIndex bf ff).result = FetchResult.ok →
      (Scan s g hashLeaf useTree startIndex endIndex bf ff).sent.map LogEntry.Index =
        intRangeN startIndex (endIndex - startIndex).toNat ∧
      List.Chain' (· < ·)
        ((Scan s g hashLeaf useTree startIndex endIndex bf ff).sent.map LogEntry.Index) ∧
      (Scan s g hashLeaf useTree startIndex endIndex bf ff).closed = true ∧
      (Scan s g hashLeaf useTree startIndex endIndex bf ff).waited = true) := by
  constructor
  · intro er h
    cases hb : (scanLoop g hashLeaf useTree s.opts.BatchSize endIndex ff bf 0
        startIndex).result with
    | ok => simp [Scan, hb] at h
    | fuelOut => simp [Scan, hb] at h
    | err er' =>
      exact scanLoop_no_err g hashLeaf useTree s.opts.BatchSize endIndex ff hne bf 0
        startIndex er' hb
  · intro hok
    have hb : (scanLoop g hashLeaf useTree s.opts.BatchSize endIndex ff bf 0
        startIndex).result = FetchResult.ok := by
      cases hb : (scanLoop g hashLeaf useTree s.opts.BatchSize endIndex ff bf 0
          startIndex).result with
      | ok => rfl
      | fuelOut => simp [Scan, hb] at hok
      | err er' => simp [Scan, hb] at hok
    have hsent := scanLoop_ok_sent g hashLeaf useTree s.opts.BatchSize endIndex ff hbs
      hlen bf 0 startIndex hb
    rw [Scan_ok_eq s g hashLeaf useTree startIndex endIndex bf ff hb]
    refine ⟨hsent, ?_, rfl, rfl⟩
    show List.Chain' (· < ·) ((scanLoop g hashLeaf useTree s.opts.BatchSize endIndex ff
      bf 0 startIndex).sent.map LogEntry.Index)
    rw [hsent]
    exact intRangeN_chain _ _

/-- Witness for `Scan_delivers_exactly_once`: the compliant `okClient`,
batch size 2, one worker, range `[0, 5)`. -/
theorem Scan_delivers_exactly_once_witness :
    (∀ er, (Scan ⟨⟨2, 1, false⟩, 0⟩ okClient (fun b => b) true 0 5 10 10).result ≠
      FetchResult.err er) ∧
    ((Scan ⟨⟨2, 1, false⟩, 0⟩ okClient (fun b => b) true 0 5 10 10).result =
        FetchResult.ok →
      (Scan ⟨⟨2, 1, false⟩, 0⟩ okClient (fun b => b) true 0 5 10 10).sent.map
          LogEntry.Index = intRangeN 0 ((5 : Int) - 0).toNat ∧
      List.Chain' (· < ·)
        ((Scan ⟨⟨2, 1, false⟩, 0⟩ okClient (fun b => b) true 0 5 10 10).sent.map
          LogEntry.Index) ∧
      (Scan ⟨⟨2, 1, false⟩, 0⟩ okClient (fun b => b) true 0 5 10 10).closed = true ∧
      (Scan ⟨⟨2, 1, false⟩, 0⟩ okClient (fun b => b) true 0 5 10 10).waited = true) :=
  Scan_delivers_exactly_once ⟨⟨2, 1, false⟩, 0⟩ okClient (fun b => b) true 0 5 10 10
    okClient_never_errs okClient_hlen (by decide) (by decide)

/-- C9: the processed-entry counter is reset at the start of every `Scan`
(the outcome is independent of the counter's value left by earlier work),
is incremented once per entry a worker receives, and after a `Scan` over
`[startIndex, endIndex)` that returns without error equals exactly
`endIndex - startIndex`, for any `NumWorkers ≥ 1` (given the collaborator's
contract of returning at most the requested entries and `BatchSize ≥ 1`). -/
theorem Scan_certsProcessed_count (s : Scanner) (g : GetEntriesFn)
    (hashLeaf : LeafBytes → Hash) (useTree : Bool) (startIndex endIndex : Int)
    (bf ff : Nat)
    (hlen : ∀ n a b l, g n a b = .ok l → l.length ≤ (b + 1 - a).toNat)
    (hbs : 1 ≤ s.opts.BatchSize)
    (hnw : 1 ≤ s.opts.NumWorkers) :
    (∀ c₀ c₁ : Int,
      Scan ⟨s.opts, c₀⟩ g hashLeaf useTree startIndex endIndex bf ff =
        Scan ⟨s.opts, c₁⟩ g hashLeaf useTree startIndex endIndex bf ff) ∧
    ((Scan s g hashLeaf useTree startIndex endIndex bf ff).result = FetchResult.ok →
      (Scan s g hashLeaf useTree startIndex endIndex bf ff).certsProcessed =
        some (((Scan s g hashLeaf useTree startIndex endIndex bf ff).sent.length :
          Int)) ∧
      (Scan s g hashLeaf useTree startIndex endIndex bf ff).certsProcessed =
        some (((endIndex - startIndex).toNat : Int))) := by
  constructor
  · intro c₀ c₁
    rfl
  · intro hok
    have hb : (scanLoop g hashLeaf useTree s.opts.BatchSize endIndex ff bf 0
        startIndex).result = FetchResult.ok := by
      cases hb : (scanLoop g hashLeaf useTree s.opts.BatchSize endIndex ff bf 0
          startIndex).result with
      | ok => rfl
      | fuelOut => simp [Scan, hb] at hok
      | err er' => simp [Scan, hb] at hok
    have hsent := scanLoop_ok_sent g hashLeaf useTree s.opts.BatchSize endIndex ff hbs
      hlen bf 0 startIndex hb
    have hcount : (scanLoop g hashLeaf useTree s.opts.BatchSize endIndex ff bf 0
        startIndex).sent.length = (endIndex - startIndex).toNat := by
      have := congrArg List.length hsent
      simpa [intRangeN_length] using this
    rw [Scan_ok_eq s g hashLeaf useTree startIndex endIndex bf ff hb]
    constructor
    · show some (processerJob (scanLoop g hashLeaf useTree s.opts.BatchSize endIndex ff
        bf 0 startIndex).sent 0) = _
      rw [processerJob_eq_length]
      simp
    · show some (processerJob (scanLoop g hashLeaf useTree s.opts.BatchSize endIndex ff
        bf 0 startIndex).sent 0) = _
      rw [processerJob_eq_length, hcount]
      simp

/-- Witness for `Scan_certsProcessed_count`: `okClient`, batch size 2, two
workers, range `[0, 5)`, stale counter value 42. -/
theorem Scan_certsProcessed_count_witness :
    (∀ c₀ c₁ : Int,
      Scan ⟨⟨2, 2, false⟩, c₀⟩ okClient (fun b => b) false 0 5 10 10 =
        Scan ⟨⟨2, 2, false⟩, c₁⟩ okClient (fun b => b) false 0 5 10 10) ∧
    ((Scan ⟨⟨2, 2, false⟩, 42⟩ okClient (fun b => b) false 0 5 10 10).result =
        FetchResult.ok →
      (Scan ⟨⟨2, 2, false⟩, 42⟩ okClient (fun b => b) false 0 5 10 10).certsProcessed =
        some (((Scan ⟨⟨2, 2, false⟩, 42⟩ okClient (fun b => b) false 0 5
          10 10).sent.length : Int)) ∧
      (Scan ⟨⟨2, 2, false⟩, 42⟩ okClient (fun b => b) false 0 5 10 10).certsProcessed =
        some ((((5 : Int) - 0).toNat : Int))) :=
  Scan_certsProcessed_count ⟨⟨2, 2, false⟩, 42⟩ okClient (fun b => b) false 0 5 10 10
    okClient_hlen (by decide) (by decide)

/-- C8: when a batch's fetch fails, `Scan` returns that error immediately:
the entry channel is not closed, the worker pool is not joined, the
completion log line is not emitted (and the counter's final value is
undetermined); the clean-shutdown steps run exactly on the success path;
a batch-loop iteration whose fetch fails yields only that fetch's traces —
no later batch is fetched, whatever fuel remains. -/
theorem Scan_abort_on_fetch_error (s : Scanner) (g : GetEntriesFn)
    (hashLeaf : LeafBytes → Hash) (useTree : Bool) (startIndex endIndex : Int)
    (bf ff : Nat) :
    (∀ er, (Scan s g hashLeaf useTree startIndex endIndex bf ff).result =
        FetchResult.err er →
      (Scan s g hashLeaf useTree startIndex endIndex bf ff).closed = false ∧
      (Scan s g hashLeaf useTree startIndex endIndex bf ff).waited = false ∧
      (Scan s g hashLeaf useTree startIndex endIndex bf ff).completedLogged = false ∧
      (Scan s g hashLeaf useTree startIndex endIndex bf ff).certsProcessed = none) ∧
    ((Scan s g hashLeaf useTree startIndex endIndex bf ff).result = FetchResult.ok →
      (Scan s g hashLeaf useTree startIndex endIndex bf ff).closed = true ∧
      (Scan s g hashLeaf useTree startIndex endIndex bf ff).waited = true ∧
      (Scan s g hashLeaf useTree startIndex endIndex bf ff).completedLogged = true) ∧
    (∀ er, (scanLoop g hashLeaf useTree s.opts.BatchSize endIndex ff bf 0
        startIndex).result = FetchResult.err er →
      (Scan s g hashLeaf useTree startIndex endIndex bf ff).result =
        FetchResult.err er) ∧
    (∀ (fuel calls : Nat) (start : Int) (er : Err), start < endIndex →
      (fetch g hashLeaf useTree ff calls start
        (min (start + s.opts.BatchSize) endIndex - 1)).result = FetchResult.err er →
      scanLoop g hashLeaf useTree s.opts.BatchSize endIndex ff (fuel + 1) calls start =
        ⟨(fetch g hashLeaf useTree ff calls start
            (min (start + s.opts.BatchSize) endIndex - 1)).calls,
         (fetch g hashLeaf useTree ff calls start
            (min (start + s.opts.BatchSize) endIndex - 1)).sent,
         (fetch g hashLeaf useTree ff calls start
            (min (start + s.opts.BatchSize) endIndex - 1)).tree,
         (fetch g hashLeaf useTree ff calls start
            (min (start + s.opts.BatchSize) endIndex - 1)).reqs,
         (fetch g hashLeaf useTree ff calls start
            (min (start + s.opts.BatchSize) endIndex - 1)).sleeps,
         FetchResult.err er⟩) := by
  refine ⟨?_, ?_, ?_, ?_⟩
  · intro er h
    cases hb : (scanLoop g hashLeaf useTree s.opts.BatchSize endIndex ff bf 0
        startIndex).result with
    | ok => simp [Scan, hb] at h
    | fuelOut => simp [Scan, hb] at h
    | err er' => simp [Scan, hb]
  · intro h
    cases hb : (scanLoop g hashLeaf useTree s.opts.BatchSize endIndex ff bf 0
        startIndex).result with
    | ok => simp [Scan, hb]
    | fuelOut => simp [Scan, hb] at h
    | err er' => simp [Scan, hb] at h
  · intro er hb
    rw [Scan_err_eq s g hashLeaf useTree startIndex endIndex bf ff er hb]
  · intro fuel calls start er h hf
    rw [scanLoop]
    simp only [h, if_true]
    rw [hf]

/-- C2: a successful `GetEntries` response with fewer entries than the
remaining sub-range is neither an error nor completion: the loop ingests
it and the whole fetch continues as a fresh iteration on the shortened
remaining range `[start + len, e]` (whose first action, fuel permitting,
is to request exactly that sub-range), and the fetch reports success only
when, after ingesting a batch, `r.start` exceeds `r.end`. -/
theorem fetch_short_response (g : GetEntriesFn) (hashLeaf : LeafBytes → Hash)
    (useTree : Bool) (fuel calls : Nat) (start e : Int) (retries retryWait : Nat)
    (l : List LeafBytes)
    (hok : g calls start e = .ok l)
    (hshort : start + (l.length : Int) ≤ e) :
    (fetchGo g hashLeaf useTree (fuel + 1) calls start e retries retryWait =
      ⟨(fetchGo g hashLeaf useTree fuel (calls + 1) (start + (l.length : Int)) e
          FETCH_RETRIES FETCH_RETRY_WAIT).calls,
       (fetchGo g hashLeaf useTree fuel (calls + 1) (start + (l.length : Int)) e
          FETCH_RETRIES FETCH_RETRY_WAIT).start,
       indexFrom start l ++
         (fetchGo g hashLeaf useTree fuel (calls + 1) (start + (l.length : Int)) e
            FETCH_RETRIES FETCH_RETRY_WAIT).sent,
       (if useTree then l.map hashLeaf else []) ++
         (fetchGo g hashLeaf useTree fuel (calls + 1) (start + (l.length : Int)) e
            FETCH_RETRIES FETCH_RETRY_WAIT).tree,
       (start, e) ::
         (fetchGo g hashLeaf useTree fuel (calls + 1) (start + (l.length : Int)) e
            FETCH_RETRIES FETCH_RETRY_WAIT).reqs,
       (fetchGo g hashLeaf useTree fuel (calls + 1) (start + (l.length : Int)) e
          FETCH_RETRIES FETCH_RETRY_WAIT).sleeps,
       (fetchGo g hashLeaf useTree fuel (calls + 1) (start + (l.length : Int)) e
          FETCH_RETRIES FETCH_RETRY_WAIT).result⟩) ∧
    (0 < fuel →
      (fetchGo g hashLeaf useTree fuel (calls + 1) (start + (l.length : Int)) e
        FETCH_RETRIES FETCH_RETRY_WAIT).reqs.head? =
          some (start + (l.length : Int), e)) ∧
    (∀ (fuel' calls' : Nat) (start' : Int) (r' w' : Nat),
      (fetchGo g hashLeaf useTree fuel' calls' start' e r' w').result =
        FetchResult.ok →
      e < (fetchGo g hashLeaf useTree fuel' calls' start' e r' w').start) := by
  refine ⟨?_, ?_, ?_⟩
  · rw [fetchGo, hok]
    have hlt : ¬ e < start + (l.length : Int) := by omega
    simp [hlt]
  · intro hfu
    exact fetchGo_reqs_head g hashLeaf useTree fuel (calls + 1)
      (start + (l.length : Int)) e FETCH_RETRIES FETCH_RETRY_WAIT hfu
  · intro fuel' calls' start' r' w'
    exact fetchGo_ok_gt g hashLeaf useTree fuel' calls' start' e r' w'

/-- Witness for `fetch_short_response`: `shortClient` answers the request
for `[0, 1]` with the single entry `0`, leaving `[1, 1]` outstanding. -/
theorem fetch_short_response_witness :
    (fetchGo shortClient (fun b => b) true (1 + 1) 0 0 1 10 1 =
      ⟨(fetchGo shortClient (fun b => b) true 1 (0 + 1) ((0 : Int) + ((1 : Nat) : Int)) 1
          FETCH_RETRIES FETCH_RETRY_WAIT).calls,
       (fetchGo shortClient (fun b => b) true 1 (0 + 1) ((0 : Int) + ((1 : Nat) : Int)) 1
          FETCH_RETRIES FETCH_RETRY_WAIT).start,
       indexFrom 0 [0] ++
         (fetchGo shortClient (fun b => b) true 1 (0 + 1) ((0 : Int) + ((1 : Nat) : Int))
            1 FETCH_RETRIES FETCH_RETRY_WAIT).sent,
       (if true then [0].map (fun b => b) else []) ++
         (fetchGo shortClient (fun b => b) true 1 (0 + 1) ((0 : Int) + ((1 : Nat) : Int))
            1 FETCH_RETRIES FETCH_RETRY_WAIT).tree,
       ((0 : Int), (1 : Int)) ::
         (fetchGo shortClient (fun b => b) true 1 (0 + 1) ((0 : Int) + ((1 : Nat) : Int))
            1 FETCH_RETRIES FETCH_RETRY_WAIT).reqs,
       (fetchGo shortClient (fun b => b) true 1 (0 + 1) ((0 : Int) + ((1 : Nat) : Int)) 1
          FETCH_RETRIES FETCH_RETRY_WAIT).sleeps,
       (fetchGo shortClient (fun b => b) true 1 (0 + 1) ((0 : Int) + ((1 : Nat) : Int)) 1
          FETCH_RETRIES FETCH_RETRY_WAIT).result⟩) ∧
    (0 < 1 →
      (fetchGo shortClient (fun b => b) true 1 (0 + 1) ((0 : Int) + ((1 : Nat) : Int)) 1
        FETCH_RETRIES FETCH_RETRY_WAIT).reqs.head? =
          some ((0 : Int) + ((1 : Nat) : Int), (1 : Int))) ∧
    (∀ (fuel' calls' : Nat) (start' : Int) (r' w' : Nat),
      (fetchGo shortClient (fun b => b) true fuel' calls' start' 1 r' w').result =
        FetchResult.ok →
      (1 : Int) < (fetchGo shortClient (fun b => b) true fuel' calls' start' 1 r'
        w').start) :=
  fetch_short_response shortClient (fun b => b) true 1 0 0 1 10 1 [0] rfl (by decide)

/-- C4: within a single fetch operation the wait before the first retry is
`FETCH_RETRY_WAIT = 1` second and doubles on each subsequent consecutive
failure — `k ≤ 10` consecutive failures from the start of a fetch sleep
exactly `1, 2, 4, …, 2^(k-1)` seconds, with `FETCH_RETRIES - k` attempts
and wait `2^k` remaining; and after any successful request the loop
continues with both counters reset to their baselines `FETCH_RETRIES = 10`
and `FETCH_RETRY_WAIT = 1`. -/
theorem fetch_backoff_doubles_and_resets (g : GetEntriesFn)
    (hashLeaf : LeafBytes → Hash) (useTree : Bool) :
    (∀ (k fuel calls : Nat) (start e : Int),
      (∀ i, i < k → ∃ er, g (calls + i) start e = .error er) → k ≤ FETCH_RETRIES →
      (fetch g hashLeaf useTree (k + fuel) calls start e).sleeps =
        (List.range k).map (fun i => FETCH_RETRY_WAIT * 2 ^ i) ++
          (fetchGo g hashLeaf useTree fuel (calls + k) start e (FETCH_RETRIES - k)
            (FETCH_RETRY_WAIT * 2 ^ k)).sleeps) ∧
    (∀ (fuel calls : Nat) (start e : Int) (retries retryWait : Nat)
        (l : List LeafBytes),
      g calls start e = .ok l → start + (l.length : Int) ≤ e →
      (fetchGo g hashLeaf useTree (fuel + 1) calls start e retries retryWait).sleeps =
        (fetchGo g hashLeaf useTree fuel (calls + 1) (start + (l.length : Int)) e
          FETCH_RETRIES FETCH_RETRY_WAIT).sleeps ∧
      (fetchGo g hashLeaf useTree (fuel + 1) calls start e retries retryWait).result =
        (fetchGo g hashLeaf useTree fuel (calls + 1) (start + (l.length : Int)) e
          FETCH_RETRIES FETCH_RETRY_WAIT).result) := by
  constructor
  · intro k fuel calls start e hfail hk
    rw [fetch, fetchGo_cascade g hashLeaf useTree k fuel calls start e FETCH_RETRIES
      FETCH_RETRY_WAIT hfail hk]
  · intro fuel calls start e retries retryWait l hok hshort
    rw [fetchGo, hok]
    have hlt : ¬ e < start + (l.length : Int) := by omega
    simp [hlt]

/-- Witness for `fetch_backoff_doubles_and_resets`: `flakyClient 3` fails
its first three calls, so a fetch of `[0, 0]` sleeps `1, 2, 4` seconds;
and `shortClient`'s one-entry answer for `[0, 1]` resumes at baseline. -/
theorem fetch_backoff_doubles_and_resets_witness :
    ((fetch (flakyClient 3) (fun b => b) false (3 + 2) 0 0 0).sleeps =
      (List.range 3).map (fun i => FETCH_RETRY_WAIT * 2 ^ i) ++
        (fetchGo (flakyClient 3) (fun b => b) false 2 (0 + 3) 0 0 (FETCH_RETRIES - 3)
          (FETCH_RETRY_WAIT * 2 ^ 3)).sleeps) ∧
    ((fetchGo shortClient (fun b => b) false (1 + 1) 0 0 1 10 1).sleeps =
      (fetchGo shortClient (fun b => b) false 1 (0 + 1) ((0 : Int) + ((1 : Nat) : Int)) 1
        FETCH_RETRIES FETCH_RETRY_WAIT).sleeps ∧
    (fetchGo shortClient (fun b => b) false (1 + 1) 0 0 1 10 1).result =
      (fetchGo shortClient (fun b => b) false 1 (0 + 1) ((0 : Int) + ((1 : Nat) : Int)) 1
        FETCH_RETRIES FETCH_RETRY_WAIT).result) :=
  ⟨(fetch_backoff_doubles_and_resets (flakyClient 3) (fun b => b) false).1 3 2 0 0 0
    (fun i hi => ⟨7, by simp [flakyClient]; omega⟩) (by decide),
   (fetch_backoff_doubles_and_resets shortClient (fun b => b) false).2 1 0 0 1 10 1 [0]
    rfl (by decide)⟩

/-- C10: a successful zero-entry response leaves `r.start` unchanged,
resets the retry budget and wait to their baselines, does not sleep and
re-issues the identical request; consequently a collaborator that always
succeeds with zero entries makes a fetch of any range with `start ≤ e`
run forever — for every fuel bound it has made no progress, sent nothing,
never slept, issued the same request over and over, and not returned. -/
theorem fetch_empty_success_never_returns (hashLeaf : LeafBytes → Hash)
    (useTree : Bool) :
    (∀ (g : GetEntriesFn) (fuel calls : Nat) (start e : Int)
        (retries retryWait : Nat),
      g calls start e = .ok [] → start ≤ e →
      fetchGo g hashLeaf useTree (fuel + 1) calls start e retries retryWait =
        ⟨(fetchGo g hashLeaf useTree fuel (calls + 1) start e FETCH_RETRIES
            FETCH_RETRY_WAIT).calls,
         (fetchGo g hashLeaf useTree fuel (calls + 1) start e FETCH_RETRIES
            FETCH_RETRY_WAIT).start,
         (fetchGo g hashLeaf useTree fuel (calls + 1) start e FETCH_RETRIES
            FETCH_RETRY_WAIT).sent,
         (fetchGo g hashLeaf useTree fuel (calls + 1) start e FETCH_RETRIES
            FETCH_RETRY_WAIT).tree,
         (start, e) :: (fetchGo g hashLeaf useTree fuel (calls + 1) start e FETCH_RETRIES
            FETCH_RETRY_WAIT).reqs,
         (fetchGo g hashLeaf useTree fuel (calls + 1) start e FETCH_RETRIES
            FETCH_RETRY_WAIT).sleeps,
         (fetchGo g hashLeaf useTree fuel (calls + 1) start e FETCH_RETRIES
            FETCH_RETRY_WAIT).result⟩) ∧
    (∀ (fuel calls : Nat) (start e : Int) (retries retryWait : Nat), start ≤ e →
      fetchGo emptyOkClient hashLeaf useTree fuel calls start e retries retryWait =
        ⟨calls + fuel, start, [], [], List.replicate fuel (start, e), [],
          FetchResult.fuelOut⟩) := by
  constructor
  · intro g fuel calls start e retries retryWait hok hse
    rw [fetchGo, hok]
    have hlt : ¬ e < start := by omega
    simp only [List.length_nil, Nat.cast_zero, add_zero, List.map_nil]
    rw [if_neg hlt]
    simp [indexFrom]
  · intro fuel
    induction fuel with
    | zero =>
      intro calls start e retries retryWait hse
      simp [fetchGo]
    | succ fuel ih =>
      intro calls start e retries retryWait hse
      rw [fetchGo]
      rw [show emptyOkClient calls start e = .ok [] from rfl]
      have hlt : ¬ e < start := by omega
      simp only [List.length_nil, Nat.cast_zero, add_zero, List.map_nil]
      rw [if_neg hlt]
      rw [ih (calls + 1) start e FETCH_RETRIES FETCH_RETRY_WAIT hse]
      simp [indexFrom, List.replicate_succ]
      omega

/-- C3 counterexample: a collaborator that fails exactly 10 consecutive
times — "10 or more" in the claim's words — and then succeeds does NOT
make the fetch return the error: the scan over `[0, 3)` (default options,
ample fuel) completes without error and processes all 3 entries, because
`retries == 0` is only reached on the 11th consecutive failure. -/
theorem fetch_ten_failures_then_success_scan_ok :
    (Scan ⟨DefaultScannerOptions, 0⟩ (flakyClient 10) (fun b => b) true 0 3 3
      15).result = FetchResult.ok ∧
    (Scan ⟨DefaultScannerOptions, 0⟩ (flakyClient 10) (fun b => b) true 0 3 3
      15).certsProcessed = some 3 := by
  decide

/-- C3 (amended): at most `FETCH_RETRIES = 10` consecutive transient
failures followed by success are tolerated — the scan then completes
without error with the correct entry count; with `FETCH_RETRIES + 1 = 11`
or more consecutive failures the fetch returns the error, and `Scan`
returns it as a fatal error with no further batch attempted (its request
trace is exactly the 11 identical requests of the first, failing batch). -/
theorem fetch_retry_budget (hashLeaf : LeafBytes → Hash) (useTree : Bool) :
    (∀ (f ff B : Nat) (s : Scanner) (startIndex endIndex : Int),
      f ≤ FETCH_RETRIES → 1 ≤ s.opts.BatchSize → startIndex < endIndex →
      (endIndex - startIndex).toNat ≤ B + 1 →
      (Scan s (flakyClient f) hashLeaf useTree startIndex endIndex (B + 1)
        (f + (ff + 1))).result = FetchResult.ok ∧
      (Scan s (flakyClient f) hashLeaf useTree startIndex endIndex (B + 1)
        (f + (ff + 1))).certsProcessed =
          some (((endIndex - startIndex).toNat : Int))) ∧
    (∀ (f fuel : Nat) (start e : Int), FETCH_RETRIES + 1 ≤ f →
      (fetch (flakyClient f) hashLeaf useTree (FETCH_RETRIES + 1 + fuel) 0 start
        e).result = FetchResult.err 7 ∧
      (fetch (flakyClient f) hashLeaf useTree (FETCH_RETRIES + 1 + fuel) 0 start
        e).reqs = List.replicate (FETCH_RETRIES + 1) (start, e)) ∧
    (∀ (f B fuel : Nat) (s : Scanner) (startIndex endIndex : Int),
      FETCH_RETRIES + 1 ≤ f → startIndex < endIndex →
      (Scan s (flakyClient f) hashLeaf useTree startIndex endIndex (B + 1)
        (FETCH_RETRIES + 1 + fuel)).result = FetchResult.err 7 ∧
      (Scan s (flakyClient f) hashLeaf useTree startIndex endIndex (B + 1)
        (FETCH_RETRIES + 1 + fuel)).reqs =
          List.replicate (FETCH_RETRIES + 1)
            (startIndex, min (startIndex + s.opts.BatchSize) endIndex - 1)) := by
  refine ⟨?_, ?_, ?_⟩
  · intro f ff B s startIndex endIndex hf hbs h hfuel
    have hb := flaky_scanLoop_full f hashLeaf useTree s.opts.BatchSize endIndex ff B hf
      hbs startIndex h hfuel
    have hsent := scanLoop_ok_sent (flakyClient f) hashLeaf useTree s.opts.BatchSize
      endIndex (f + (ff + 1)) hbs (flakyClient_hlen f) (B + 1) 0 startIndex hb
    have hcount : (scanLoop (flakyClient f) hashLeaf useTree s.opts.BatchSize endIndex
        (f + (ff + 1)) (B + 1) 0 startIndex).sent.length =
        (endIndex - startIndex).toNat := by
      have := congrArg List.length hsent
      simpa [intRangeN_length] using this
    rw [Scan_ok_eq s (flakyClient f) hashLeaf useTree startIndex endIndex (B + 1)
      (f + (ff + 1)) hb]
    refine ⟨rfl, ?_⟩
    show some (processerJob (scanLoop (flakyClient f) hashLeaf useTree s.opts.BatchSize
      endIndex (f + (ff + 1)) (B + 1) 0 startIndex).sent 0) = _
    rw [processerJob_eq_length, hcount]
    simp
  · intro f fuel start e hf
    have hfail : ∀ i, i < FETCH_RETRIES → ∃ er', flakyClient f (0 + i) start e =
        .error er' := by
      intro i hi
      refine ⟨7, ?_⟩
      simp only [flakyClient, Nat.zero_add]
      rw [if_pos (by omega)]
    have hlast : flakyClient f (0 + FETCH_RETRIES) start e = .error 7 := by
      simp only [flakyClient, Nat.zero_add]
      rw [if_pos (show FETCH_RETRIES < f by unfold FETCH_RETRIES at hf ⊢; omega)]
    rw [fetch, fetchGo_exhaust (flakyClient f) hashLeaf useTree fuel 0 start e
      FETCH_RETRIES FETCH_RETRY_WAIT 7 hfail hlast]
    exact ⟨rfl, rfl⟩
  · intro f B fuel s startIndex endIndex hf h
    have hfail : ∀ i, i < FETCH_RETRIES → ∃ er', flakyClient f (0 + i) startIndex
        (min (startIndex + s.opts.BatchSize) endIndex - 1) = .error er' := by
      intro i hi
      refine ⟨7, ?_⟩
      simp only [flakyClient, Nat.zero_add]
      rw [if_pos (by omega)]
    have hlast : flakyClient f (0 + FETCH_RETRIES) startIndex
        (min (startIndex + s.opts.BatchSize) endIndex - 1) = .error 7 := by
      simp only [flakyClient, Nat.zero_add]
      rw [if_pos (show FETCH_RETRIES < f by unfold FETCH_RETRIES at hf ⊢; omega)]
    have hfe := fetchGo_exhaust (flakyClient f) hashLeaf useTree fuel 0 startIndex
      (min (startIndex + s.opts.BatchSize) endIndex - 1) FETCH_RETRIES FETCH_RETRY_WAIT
      7 hfail hlast
    have hbatch : scanLoop (flakyClient f) hashLeaf useTree s.opts.BatchSize endIndex
        (FETCH_RETRIES + 1 + fuel) (B + 1) 0 startIndex =
        ⟨0 + FETCH_RETRIES + 1, [], [],
         List.replicate (FETCH_RETRIES + 1)
           (startIndex, min (startIndex + s.opts.BatchSize) endIndex - 1),
         (List.range FETCH_RETRIES).map (fun i => FETCH_RETRY_WAIT * 2 ^ i),
         FetchResult.err 7⟩ := by
      rw [scanLoop]
      simp only [h, if_true, fetch]
      rw [hfe]
    have hres : (scanLoop (flakyClient f) hashLeaf useTree s.opts.BatchSize endIndex
        (FETCH_RETRIES + 1 + fuel) (B + 1) 0 startIndex).result =
        FetchResult.err 7 := by
      rw [hbatch]
    rw [Scan_err_eq s (flakyClient f) hashLeaf useTree startIndex endIndex (B + 1)
      (FETCH_RETRIES + 1 + fuel) 7 hres]
    refine ⟨rfl, ?_⟩
    show (scanLoop (flakyClient f) hashLeaf useTree s.opts.BatchSize endIndex
      (FETCH_RETRIES + 1 + fuel) (B + 1) 0 startIndex).reqs = _
    rw [hbatch]

end Certspotter
